import Mathlib

/-!
Shallow embedding of `server/models.py`: a relational data model for
employees, projects, meetings, the `Assignment` association entity linking
employees to projects, and the `employees_meetings` join table linking
employees to meetings.

Tables are lists of rows; the store assigns integer identifiers from
per-table counters.  Non-key columns are nullable (`Option`), matching the
SQLAlchemy column declarations, which carry no `nullable=False`.  Foreign-key
checks happen at write time (the persistence boundary); cascade rules follow
the relationship configuration: `cascade='all, delete-orphan'` from both
`Employee.assignments` and `Project.assignments`, and join-row cleanup for
the `secondary=employee_meetings` relationship.
-/

namespace Models

/-- Row of the `employees` table: id, name, hire_date. -/
structure Employee where
  id : Nat
  name : Option String
  hire_date : Option String
deriving DecidableEq, Repr

/-- Row of the `meetings` table: id, topic, scheduled_time, location. -/
structure Meeting where
  id : Nat
  topic : Option String
  scheduled_time : Option String
  location : Option String
deriving DecidableEq, Repr

/-- Row of the `projects` table: id, title, budget. -/
structure Project where
  id : Nat
  title : Option String
  budget : Option Int
deriving DecidableEq, Repr

/-- Row of the `assignments` table: id, role, start_date, end_date, plus the
two foreign-key columns `employee_id` and `project_id` (both nullable, as in
the source, where neither column carries `nullable=False`). -/
structure Assignment where
  id : Nat
  role : Option String
  start_date : Option String
  end_date : Option String
  employee_id : Option Nat
  project_id : Option Nat
deriving DecidableEq, Repr

/-- The persisted state: the four entity tables, the `employees_meetings`
join table of (employee_id, meeting_id) pairs, and the id counters used for
system-assigned identifiers. -/
structure Store where
  employees : List Employee
  meetings : List Meeting
  projects : List Project
  assignments : List Assignment
  employee_meetings : List (Nat × Nat)
  next_employee_id : Nat
  next_meeting_id : Nat
  next_project_id : Nat
  next_assignment_id : Nat
deriving DecidableEq, Repr

/-- The store with no rows. -/
def emptyStore : Store := ⟨[], [], [], [], [], 1, 1, 1, 1⟩

/-- Errors surfaced at the persistence boundary (spec §7): a write whose
foreign key fails to resolve, a primary-key collision on the join table's
composite key, and a read/update/delete of a missing identifier. -/
inductive DbError where
  | ReferentialIntegrityError
  | IntegrityError
  | NotFoundError
deriving DecidableEq, Repr

/-- Does an `employees` row with this id exist? -/
def employeeExists (es : List Employee) (eid : Nat) : Bool :=
  es.any (fun e => e.id == eid)

/-- Does a `meetings` row with this id exist? -/
def meetingExists (ms : List Meeting) (mid : Nat) : Bool :=
  ms.any (fun m => m.id == mid)

/-- Does a `projects` row with this id exist? -/
def projectExists (ps : List Project) (pid : Nat) : Bool :=
  ps.any (fun p => p.id == pid)

/-- Foreign-key check for an assignment row: each of `employee_id` and
`project_id`, when set, must reference an existing row; an unset (NULL)
column passes, as in SQL foreign-key semantics over nullable columns. -/
def fkOk (es : List Employee) (ps : List Project)
    (eid pid : Option Nat) : Bool :=
  (match eid with
   | none => true
   | some e => employeeExists es e) &&
  (match pid with
   | none => true
   | some p => projectExists ps p)

/-- Insert an `employees` row; the identifier is system-assigned. -/
def createEmployee (st : Store) (name hd : Option String) : Store × Nat :=
  ({ st with
      employees := st.employees ++ [⟨st.next_employee_id, name, hd⟩],
      next_employee_id := st.next_employee_id + 1 },
   st.next_employee_id)

/-- Insert a `meetings` row; the identifier is system-assigned. -/
def createMeeting (st : Store) (topic sched loc : Option String) :
    Store × Nat :=
  ({ st with
      meetings := st.meetings ++ [⟨st.next_meeting_id, topic, sched, loc⟩],
      next_meeting_id := st.next_meeting_id + 1 },
   st.next_meeting_id)

/-- Insert a `projects` row; the identifier is system-assigned. -/
def createProject (st : Store) (title : Option String) (budget : Option Int) :
    Store × Nat :=
  ({ st with
      projects := st.projects ++ [⟨st.next_project_id, title, budget⟩],
      next_project_id := st.next_project_id + 1 },
   st.next_project_id)

/-- Insert an `assignments` row.  The foreign-key constraints
`fk_assignments_employee_id_employees` and `fk_assignments_project_id_projects`
reject a set reference to a nonexistent row; unset references are allowed
(the columns are nullable). -/
def createAssignment (st : Store) (role sd ed : Option String)
    (eid pid : Option Nat) : Except DbError (Store × Nat) :=
  if fkOk st.employees st.projects eid pid then
    .ok ({ st with
            assignments := st.assignments ++
              [⟨st.next_assignment_id, role, sd, ed, eid, pid⟩],
            next_assignment_id := st.next_assignment_id + 1 },
         st.next_assignment_id)
  else
    .error .ReferentialIntegrityError

/-- Update the attribute columns of an `employees` row (the identifier is the
primary key and never changes). -/
def updateEmployee (st : Store) (eid : Nat) (name hd : Option String) :
    Except DbError Store :=
  if employeeExists st.employees eid then
    .ok { st with
            employees := st.employees.map
              (fun e => if e.id == eid then ⟨e.id, name, hd⟩ else e) }
  else
    .error .NotFoundError

/-- Update the attribute columns of a `meetings` row. -/
def updateMeeting (st : Store) (mid : Nat) (topic sched loc : Option String) :
    Except DbError Store :=
  if meetingExists st.meetings mid then
    .ok { st with
            meetings := st.meetings.map
              (fun m => if m.id == mid then ⟨m.id, topic, sched, loc⟩ else m) }
  else
    .error .NotFoundError

/-- Update the attribute columns of a `projects` row. -/
def updateProject (st : Store) (pid : Nat) (title : Option String)
    (budget : Option Int) : Except DbError Store :=
  if projectExists st.projects pid then
    .ok { st with
            projects := st.projects.map
              (fun p => if p.id == pid then ⟨p.id, title, budget⟩ else p) }
  else
    .error .NotFoundError

/-- Update an `assignments` row, its foreign-key columns included; the new
references go through the same foreign-key check as an insert. -/
def updateAssignment (st : Store) (aid : Nat) (role sd ed : Option String)
    (eid pid : Option Nat) : Except DbError Store :=
  if st.assignments.any (fun a => a.id == aid) then
    if fkOk st.employees st.projects eid pid then
      .ok { st with
              assignments := st.assignments.map
                (fun a => if a.id == aid then ⟨a.id, role, sd, ed, eid, pid⟩
                          else a) }
    else
      .error .ReferentialIntegrityError
  else
    .error .NotFoundError

/-- Delete an `employees` row.  `Employee.assignments` is configured with
`cascade='all, delete-orphan'`, so every assignment whose `employee_id`
matches is deleted with it; the `secondary=employee_meetings` relationship
removes every join row whose `employee_id` matches. -/
def deleteEmployee (st : Store) (eid : Nat) : Except DbError Store :=
  if employeeExists st.employees eid then
    .ok { st with
            employees := st.employees.filter (fun e => e.id != eid),
            assignments :=
              st.assignments.filter (fun a => a.employee_id != some eid),
            employee_meetings :=
              st.employee_meetings.filter (fun r => r.1 != eid) }
  else
    .error .NotFoundError

/-- Delete a `meetings` row.  The `secondary=employee_meetings` relationship
removes every join row whose `meeting_id` matches; no employee is touched. -/
def deleteMeeting (st : Store) (mid : Nat) : Except DbError Store :=
  if meetingExists st.meetings mid then
    .ok { st with
            meetings := st.meetings.filter (fun m => m.id != mid),
            employee_meetings :=
              st.employee_meetings.filter (fun r => r.2 != mid) }
  else
    .error .NotFoundError

/-- Delete a `projects` row.  `Project.assignments` is configured with
`cascade='all, delete-orphan'`, so every assignment whose `project_id`
matches is deleted with it. -/
def deleteProject (st : Store) (pid : Nat) : Except DbError Store :=
  if projectExists st.projects pid then
    .ok { st with
            projects := st.projects.filter (fun p => p.id != pid),
            assignments :=
              st.assignments.filter (fun a => a.project_id != some pid) }
  else
    .error .NotFoundError

/-- `employee.projects.append(project)`: the association proxy's creator
builds `Assignment(project=project_obj)`, `back_populates` attaches the
employee, and a fresh assignment row with both references set and the
attribute columns left NULL is inserted. -/
def appendProject (st : Store) (eid pid : Nat) : Except DbError Store :=
  (createAssignment st none none none (some eid) (some pid)).map (·.1)

/-- `project.employees.append(employee)`: symmetric to `appendProject`; the
creator builds `Assignment(employee=employee_obj)` and the same fresh
assignment row is inserted. -/
def appendEmployee (st : Store) (pid eid : Nat) : Except DbError Store :=
  (createAssignment st none none none (some eid) (some pid)).map (·.1)

/-- `employee.meetings.append(meeting)` (or the symmetric
`meeting.employees.append(employee)`): inserts the (employee_id, meeting_id)
pair into the join table.  The pair is the table's composite primary key, so
inserting a pair already present violates it. -/
def appendMeeting (st : Store) (eid mid : Nat) : Except DbError Store :=
  if employeeExists st.employees eid && meetingExists st.meetings mid then
    if (eid, mid) ∈ st.employee_meetings then
      .error .IntegrityError
    else
      .ok { st with
              employee_meetings := st.employee_meetings ++ [(eid, mid)] }
  else
    .error .ReferentialIntegrityError

/-- Removing an assignment from its parent's `assignments` collection (or,
through the association proxy, removing the opposite entity from the derived
`projects`/`employees` view): with `cascade='all, delete-orphan'` the
de-parented assignment row is deleted outright. -/
def removeAssignment (st : Store) (aid : Nat) : Store :=
  { st with assignments := st.assignments.filter (fun a => a.id != aid) }

/-- `Employee.assignments`: the assignments whose `employee_id` references
this employee. -/
def Employee.assignments (st : Store) (eid : Nat) : List Assignment :=
  st.assignments.filter (fun a => a.employee_id == some eid)

/-- `Employee.projects`: the association proxy projecting each of the
employee's assignments to its `project` reference (`none` when the
assignment's `project_id` is unset or dangling). -/
def Employee.projects (st : Store) (eid : Nat) : List (Option Project) :=
  (Employee.assignments st eid).map
    (fun a => a.project_id.bind
      (fun pid => st.projects.find? (fun p => p.id == pid)))

/-- `Project.assignments`: the assignments whose `project_id` references
this project. -/
def Project.assignments (st : Store) (pid : Nat) : List Assignment :=
  st.assignments.filter (fun a => a.project_id == some pid)

/-- `Project.employees`: the association proxy projecting each of the
project's assignments to its `employee` reference. -/
def Project.employees (st : Store) (pid : Nat) : List (Option Employee) :=
  (Project.assignments st pid).map
    (fun a => a.employee_id.bind
      (fun eid => st.employees.find? (fun e => e.id == eid)))

/-- `Employee.meetings`: the meetings reached through the join table from
this employee. -/
def Employee.meetings (st : Store) (eid : Nat) : List (Option Meeting) :=
  (st.employee_meetings.filter (fun r => r.1 == eid)).map
    (fun r => st.meetings.find? (fun m => m.id == r.2))

/-- `Meeting.employees`: the employees reached through the join table from
this meeting. -/
def Meeting.employees (st : Store) (mid : Nat) : List (Option Employee) :=
  (st.employee_meetings.filter (fun r => r.2 == mid)).map
    (fun r => st.employees.find? (fun e => e.id == r.1))

/-- One operation of the interface of §4: create, update and delete per
entity, the view appends, and assignment removal. -/
inductive Op where
  | createEmployee (name hd : Option String)
  | createMeeting (topic sched loc : Option String)
  | createProject (title : Option String) (budget : Option Int)
  | createAssignment (role sd ed : Option String) (eid pid : Option Nat)
  | updateEmployee (eid : Nat) (name hd : Option String)
  | updateMeeting (mid : Nat) (topic sched loc : Option String)
  | updateProject (pid : Nat) (title : Option String) (budget : Option Int)
  | updateAssignment (aid : Nat) (role sd ed : Option String)
      (eid pid : Option Nat)
  | deleteEmployee (eid : Nat)
  | deleteMeeting (mid : Nat)
  | deleteProject (pid : Nat)
  | appendProject (eid pid : Nat)
  | appendEmployee (pid eid : Nat)
  | appendMeeting (eid mid : Nat)
  | removeAssignment (aid : Nat)
deriving DecidableEq, Repr

/-- Apply one operation at the persistence boundary. -/
def applyOp (st : Store) : Op → Except DbError Store
  | .createEmployee name hd => .ok (createEmployee st name hd).1
  | .createMeeting topic sched loc => .ok (createMeeting st topic sched loc).1
  | .createProject title budget => .ok (createProject st title budget).1
  | .createAssignment role sd ed eid pid =>
      (createAssignment st role sd ed eid pid).map (·.1)
  | .updateEmployee eid name hd => updateEmployee st eid name hd
  | .updateMeeting mid topic sched loc => updateMeeting st mid topic sched loc
  | .updateProject pid title budget => updateProject st pid title budget
  | .updateAssignment aid role sd ed eid pid =>
      updateAssignment st aid role sd ed eid pid
  | .deleteEmployee eid => deleteEmployee st eid
  | .deleteMeeting mid => deleteMeeting st mid
  | .deleteProject pid => deleteProject st pid
  | .appendProject eid pid => appendProject st eid pid
  | .appendEmployee pid eid => appendEmployee st pid eid
  | .appendMeeting eid mid => appendMeeting st eid mid
  | .removeAssignment aid => .ok (removeAssignment st aid)

/-- Run one operation transactionally: a failed operation leaves the store
unchanged (spec §7: integrity violations abort the operation). -/
def runOp (st : Store) (op : Op) : Store :=
  match applyOp st op with
  | .ok st' => st'
  | .error _ => st

/-- Run a sequence of operations; the reachable states are exactly
`runOps emptyStore ops` over all `ops`. -/
def runOps (st : Store) (ops : List Op) : Store :=
  ops.foldl runOp st

/-- Referential integrity as the source's nullable foreign-key columns
enforce it: each set reference of each assignment resolves. -/
def refIntact (st : Store) : Bool :=
  st.assignments.all
    (fun a => fkOk st.employees st.projects a.employee_id a.project_id)

/-- Referential integrity as §3 of the spec words it: both references of
each assignment are set and resolve to existing rows. -/
def refResolves (st : Store) : Bool :=
  st.assignments.all
    (fun a =>
      (match a.employee_id with
       | none => false
       | some e => employeeExists st.employees e) &&
      (match a.project_id with
       | none => false
       | some p => projectExists st.projects p))

/-- A small populated store used to evaluate the theorems at concrete
inputs: one employee (id 1), two meetings (ids 1, 2), one project (id 1),
one assignment linking employee 1 to project 1, and join row (1, 1). -/
def demoOps : List Op :=
  [.createEmployee none none, .createMeeting none none none,
   .createMeeting none none none, .createProject none none,
   .appendProject 1 1, .appendMeeting 1 1]

/-- The store `demoOps` reaches from the empty store. -/
def demoStore : Store := runOps emptyStore demoOps

/-! ### Characterization and monotonicity lemmas -/

theorem employeeExists_iff {es : List Employee} {eid : Nat} :
    employeeExists es eid = true ↔ ∃ e ∈ es, e.id = eid := by
  simp [employeeExists]

theorem projectExists_iff {ps : List Project} {pid : Nat} :
    projectExists ps pid = true ↔ ∃ p ∈ ps, p.id = pid := by
  simp [projectExists]

theorem meetingExists_iff {ms : List Meeting} {mid : Nat} :
    meetingExists ms mid = true ↔ ∃ m ∈ ms, m.id = mid := by
  simp [meetingExists]

theorem employeeExists_append {es : List Employee} (l : List Employee)
    {eid : Nat} (h : employeeExists es eid = true) :
    employeeExists (es ++ l) eid = true := by
  rw [employeeExists_iff] at h ⊢
  obtain ⟨e, he, hid⟩ := h
  exact ⟨e, List.mem_append_left l he, hid⟩

theorem projectExists_append {ps : List Project} (l : List Project)
    {pid : Nat} (h : projectExists ps pid = true) :
    projectExists (ps ++ l) pid = true := by
  rw [projectExists_iff] at h ⊢
  obtain ⟨p, hp, hid⟩ := h
  exact ⟨p, List.mem_append_left l hp, hid⟩

theorem employeeExists_filter {es : List Employee} {eid d : Nat}
    (h : employeeExists es eid = true) (hne : eid ≠ d) :
    employeeExists (es.filter (fun e => e.id != d)) eid = true := by
  rw [employeeExists_iff] at h ⊢
  obtain ⟨e, he, hid⟩ := h
  exact ⟨e, List.mem_filter.mpr ⟨he, by simp [hid, hne]⟩, hid⟩

theorem projectExists_filter {ps : List Project} {pid d : Nat}
    (h : projectExists ps pid = true) (hne : pid ≠ d) :
    projectExists (ps.filter (fun p => p.id != d)) pid = true := by
  rw [projectExists_iff] at h ⊢
  obtain ⟨p, hp, hid⟩ := h
  exact ⟨p, List.mem_filter.mpr ⟨hp, by simp [hid, hne]⟩, hid⟩

theorem employeeExists_map {es : List Employee} {f : Employee → Employee}
    (hf : ∀ e, (f e).id = e.id) {eid : Nat}
    (h : employeeExists es eid = true) :
    employeeExists (es.map f) eid = true := by
  rw [employeeExists_iff] at h ⊢
  obtain ⟨e, he, hid⟩ := h
  exact ⟨f e, List.mem_map.mpr ⟨e, he, rfl⟩, by rw [hf]; exact hid⟩

theorem projectExists_map {ps : List Project} {f : Project → Project}
    (hf : ∀ p, (f p).id = p.id) {pid : Nat}
    (h : projectExists ps pid = true) :
    projectExists (ps.map f) pid = true := by
  rw [projectExists_iff] at h ⊢
  obtain ⟨p, hp, hid⟩ := h
  exact ⟨f p, List.mem_map.mpr ⟨p, hp, rfl⟩, by rw [hf]; exact hid⟩

theorem fkOk_iff {es : List Employee} {ps : List Project}
    {eid pid : Option Nat} :
    fkOk es ps eid pid = true ↔
      (∀ e, eid = some e → employeeExists es e = true) ∧
      (∀ p, pid = some p → projectExists ps p = true) := by
  unfold fkOk
  cases eid <;> cases pid <;> simp

theorem fkOk_mono {es es' : List Employee} {ps ps' : List Project}
    {eid pid : Option Nat}
    (hE : ∀ e, employeeExists es e = true → employeeExists es' e = true)
    (hP : ∀ p, projectExists ps p = true → projectExists ps' p = true)
    (h : fkOk es ps eid pid = true) : fkOk es' ps' eid pid = true := by
  rw [fkOk_iff] at h ⊢
  exact ⟨fun e he => hE e (h.1 e he), fun p hp => hP p (h.2 p hp)⟩

theorem refIntact_iff {st : Store} :
    refIntact st = true ↔ ∀ a ∈ st.assignments,
      fkOk st.employees st.projects a.employee_id a.project_id = true := by
  simp [refIntact, List.all_eq_true]

theorem refIntact_eq_fields {st st' : Store}
    (hE : st'.employees = st.employees) (hP : st'.projects = st.projects)
    (hA : st'.assignments = st.assignments) (h : refIntact st = true) :
    refIntact st' = true := by
  unfold refIntact at *
  rw [hE, hP, hA]
  exact h

theorem refIntact_createAssignment_run (st : Store) (role sd ed : Option String)
    (eid pid : Option Nat) (h : refIntact st = true) :
    refIntact (match (createAssignment st role sd ed eid pid).map (·.1) with
               | .ok st' => st'
               | .error _ => st) = true := by
  by_cases hfk : fkOk st.employees st.projects eid pid = true
  · have hr : (match (createAssignment st role sd ed eid pid).map (·.1) with
               | .ok st' => st'
               | .error _ => st) =
        { st with
            assignments := st.assignments ++
              [⟨st.next_assignment_id, role, sd, ed, eid, pid⟩],
            next_assignment_id := st.next_assignment_id + 1 } := by
      simp [createAssignment, hfk, Except.map]
    rw [hr]
    rw [refIntact_iff] at h ⊢
    intro a ha
    rcases List.mem_append.mp ha with hA | hNew
    · exact h a hA
    · rw [List.mem_singleton] at hNew
      subst hNew
      exact hfk
  · have hr : (match (createAssignment st role sd ed eid pid).map (·.1) with
               | .ok st' => st'
               | .error _ => st) = st := by
      simp [createAssignment, hfk, Except.map]
    rw [hr]
    exact h

theorem refIntact_runOp (st : Store) (op : Op) (h : refIntact st = true) :
    refIntact (runOp st op) = true := by
  cases op with
  | createEmployee name hd =>
      have hr : runOp st (Op.createEmployee name hd) =
          { st with
              employees := st.employees ++ [⟨st.next_employee_id, name, hd⟩],
              next_employee_id := st.next_employee_id + 1 } := rfl
      rw [hr]
      rw [refIntact_iff] at h ⊢
      intro a ha
      exact fkOk_mono (fun e he => employeeExists_append _ he) (fun p hp => hp)
        (h a ha)
  | createMeeting topic sched loc =>
      exact refIntact_eq_fields rfl rfl rfl h
  | createProject title budget =>
      have hr : runOp st (Op.createProject title budget) =
          { st with
              projects := st.projects ++ [⟨st.next_project_id, title, budget⟩],
              next_project_id := st.next_project_id + 1 } := rfl
      rw [hr]
      rw [refIntact_iff] at h ⊢
      intro a ha
      exact fkOk_mono (fun e he => he) (fun p hp => projectExists_append _ hp)
        (h a ha)
  | createAssignment role sd ed eid pid =>
      exact refIntact_createAssignment_run st role sd ed eid pid h
  | updateEmployee eid name hd =>
      by_cases hg : employeeExists st.employees eid = true
      · have hr : runOp st (Op.updateEmployee eid name hd) =
            { st with
                employees := st.employees.map
                  (fun e => if e.id == eid then ⟨e.id, name, hd⟩ else e) } := by
          simp [runOp, applyOp, updateEmployee, hg]
        rw [hr]
        rw [refIntact_iff] at h ⊢
        intro a ha
        refine fkOk_mono (fun e he => employeeExists_map ?_ he)
          (fun p hp => hp) (h a ha)
        intro e
        dsimp only
        split <;> rfl
      · have hr : runOp st (Op.updateEmployee eid name hd) = st := by
          simp [runOp, applyOp, updateEmployee, hg]
        rw [hr]
        exact h
  | updateMeeting mid topic sched loc =>
      by_cases hg : meetingExists st.meetings mid = true
      · have hr : runOp st (Op.updateMeeting mid topic sched loc) =
            { st with
                meetings := st.meetings.map
                  (fun m => if m.id == mid then ⟨m.id, topic, sched, loc⟩
                            else m) } := by
          simp [runOp, applyOp, updateMeeting, hg]
        rw [hr]
        exact refIntact_eq_fields rfl rfl rfl h
      · have hr : runOp st (Op.updateMeeting mid topic sched loc) = st := by
          simp [runOp, applyOp, updateMeeting, hg]
        rw [hr]
        exact h
  | updateProject pid title budget =>
      by_cases hg : projectExists st.projects pid = true
      · have hr : runOp st (Op.updateProject pid title budget) =
            { st with
                projects := st.projects.map
                  (fun p => if p.id == pid then ⟨p.id, title, budget⟩
                            else p) } := by
          simp [runOp, applyOp, updateProject, hg]
        rw [hr]
        rw [refIntact_iff] at h ⊢
        intro a ha
        refine fkOk_mono (fun e he => he)
          (fun p hp => projectExists_map ?_ hp) (h a ha)
        intro p
        dsimp only
        split <;> rfl
      · have hr : runOp st (Op.updateProject pid title budget) = st := by
          simp [runOp, applyOp, updateProject, hg]
        rw [hr]
        exact h
  | updateAssignment aid role sd ed eid pid =>
      by_cases hex : st.assignments.any (fun a => a.id == aid) = true
      · by_cases hfk : fkOk st.employees st.projects eid pid = true
        · have hr : runOp st (Op.updateAssignment aid role sd ed eid pid) =
              { st with
                  assignments := st.assignments.map
                    (fun a => if a.id == aid then ⟨a.id, role, sd, ed, eid, pid⟩
                              else a) } := by
            simp [runOp, applyOp, updateAssignment, hex, hfk]
          rw [hr]
          rw [refIntact_iff] at h ⊢
          intro a ha
          rcases List.mem_map.mp ha with ⟨b, hb, rfl⟩
          by_cases hid : (b.id == aid) = true
          · simpa [hid] using hfk
          · simpa [hid] using h b hb
        · have hr : runOp st (Op.updateAssignment aid role sd ed eid pid) =
              st := by
            simp [runOp, applyOp, updateAssignment, hex, hfk]
          rw [hr]
          exact h
      · have hr : runOp st (Op.updateAssignment aid role sd ed eid pid) =
            st := by
          simp [runOp, applyOp, updateAssignment, hex]
        rw [hr]
        exact h
  | deleteEmployee eid =>
      by_cases hg : employeeExists st.employees eid = true
      · have hr : runOp st (Op.deleteEmployee eid) =
            { st with
                employees := st.employees.filter (fun e => e.id != eid),
                assignments :=
                  st.assignments.filter (fun a => a.employee_id != some eid),
                employee_meetings :=
                  st.employee_meetings.filter (fun r => r.1 != eid) } := by
          simp [runOp, applyOp, deleteEmployee, hg]
        rw [hr]
        rw [refIntact_iff] at h ⊢
        intro a ha
        have haA : a ∈ st.assignments := (List.mem_filter.mp ha).1
        have hane : (a.employee_id != some eid) = true :=
          (List.mem_filter.mp ha).2
        have h2 := h a haA
        rw [fkOk_iff] at h2 ⊢
        refine ⟨fun e he => ?_, fun p hp => h2.2 p hp⟩
        have hne : e ≠ eid := by
          rw [he] at hane
          simpa using hane
        exact employeeExists_filter (h2.1 e he) hne
      · have hr : runOp st (Op.deleteEmployee eid) = st := by
          simp [runOp, applyOp, deleteEmployee, hg]
        rw [hr]
        exact h
  | deleteMeeting mid =>
      by_cases hg : meetingExists st.meetings mid = true
      · have hr : runOp st (Op.deleteMeeting mid) =
            { st with
                meetings := st.meetings.filter (fun m => m.id != mid),
                employee_meetings :=
                  st.employee_meetings.filter (fun r => r.2 != mid) } := by
          simp [runOp, applyOp, deleteMeeting, hg]
        rw [hr]
        exact refIntact_eq_fields rfl rfl rfl h
      · have hr : runOp st (Op.deleteMeeting mid) = st := by
          simp [runOp, applyOp, deleteMeeting, hg]
        rw [hr]
        exact h
  | deleteProject pid =>
      by_cases hg : projectExists st.projects pid = true
      · have hr : runOp st (Op.deleteProject pid) =
            { st with
                projects := st.projects.filter (fun p => p.id != pid),
                assignments :=
                  st.assignments.filter (fun a => a.project_id != some pid) } := by
          simp [runOp, applyOp, deleteProject, hg]
        rw [hr]
        rw [refIntact_iff] at h ⊢
        intro a ha
        have haA : a ∈ st.assignments := (List.mem_filter.mp ha).1
        have hane : (a.project_id != some pid) = true :=
          (List.mem_filter.mp ha).2
        have h2 := h a haA
        rw [fkOk_iff] at h2 ⊢
        refine ⟨fun e he => h2.1 e he, fun p hp => ?_⟩
        have hne : p ≠ pid := by
          rw [hp] at hane
          simpa using hane
        exact projectExists_filter (h2.2 p hp) hne
      · have hr : runOp st (Op.deleteProject pid) = st := by
          simp [runOp, applyOp, deleteProject, hg]
        rw [hr]
        exact h
  | appendProject eid pid =>
      exact refIntact_createAssignment_run st none none none (some eid)
        (some pid) h
  | appendEmployee pid eid =>
      exact refIntact_createAssignment_run st none none none (some eid)
        (some pid) h
  | appendMeeting eid mid =>
      by_cases h1 : (employeeExists st.employees eid &&
          meetingExists st.meetings mid) = true
      · by_cases h2 : (eid, mid) ∈ st.employee_meetings
        · have hr : runOp st (Op.appendMeeting eid mid) = st := by
            simp [runOp, applyOp, appendMeeting, h1, h2]
          rw [hr]
          exact h
        · have hr : runOp st (Op.appendMeeting eid mid) =
              { st with
                  employee_meetings :=
                    st.employee_meetings ++ [(eid, mid)] } := by
            simp [runOp, applyOp, appendMeeting, h1, h2]
          rw [hr]
          exact refIntact_eq_fields rfl rfl rfl h
      · have hr : runOp st (Op.appendMeeting eid mid) = st := by
          simp [runOp, applyOp, appendMeeting, h1]
        rw [hr]
        exact h
  | removeAssignment aid =>
      have hr : runOp st (Op.removeAssignment aid) =
          { st with
              assignments := st.assignments.filter (fun a => a.id != aid) } :=
        rfl
      rw [hr]
      rw [refIntact_iff] at h ⊢
      intro a ha
      exact h a (List.mem_filter.mp ha).1

theorem refIntact_runOps (st : Store) (ops : List Op)
    (h : refIntact st = true) : refIntact (runOps st ops) = true := by
  induction ops generalizing st with
  | nil => exact h
  | cons op ops ih => exact ih (runOp st op) (refIntact_runOp st op h)

theorem join_eq_createAssignment_run (st : Store) (role sd ed : Option String)
    (eid pid : Option Nat) :
    (match (createAssignment st role sd ed eid pid).map
        (fun x : Store × Nat => x.1) with
     | .ok st' => st'
     | .error _ => st).employee_meetings = st.employee_meetings := by
  by_cases hfk : fkOk st.employees st.projects eid pid = true <;>
    simp [createAssignment, hfk, Except.map]

theorem joinNodup_runOp (st : Store) (op : Op)
    (h : st.employee_meetings.Nodup) :
    (runOp st op).employee_meetings.Nodup := by
  cases op with
  | createEmployee name hd => exact h
  | createMeeting topic sched loc => exact h
  | createProject title budget => exact h
  | createAssignment role sd ed eid pid =>
      rw [show (runOp st (Op.createAssignment role sd ed eid pid)).employee_meetings =
            st.employee_meetings from
          join_eq_createAssignment_run st role sd ed eid pid]
      exact h
  | updateEmployee eid name hd =>
      by_cases hg : employeeExists st.employees eid = true <;>
        · have hr : (runOp st (Op.updateEmployee eid name hd)).employee_meetings =
              st.employee_meetings := by
            simp [runOp, applyOp, updateEmployee, hg]
          rw [hr]
          exact h
  | updateMeeting mid topic sched loc =>
      by_cases hg : meetingExists st.meetings mid = true <;>
        · have hr : (runOp st (Op.updateMeeting mid topic sched loc)).employee_meetings =
              st.employee_meetings := by
            simp [runOp, applyOp, updateMeeting, hg]
          rw [hr]
          exact h
  | updateProject pid title budget =>
      by_cases hg : projectExists st.projects pid = true <;>
        · have hr : (runOp st (Op.updateProject pid title budget)).employee_meetings =
              st.employee_meetings := by
            simp [runOp, applyOp, updateProject, hg]
          rw [hr]
          exact h
  | updateAssignment aid role sd ed eid pid =>
      by_cases hex : st.assignments.any (fun a => a.id == aid) = true
      · by_cases hfk : fkOk st.employees st.projects eid pid = true <;>
          · have hr : (runOp st (Op.updateAssignment aid role sd ed eid pid)).employee_meetings =
                st.employee_meetings := by
              simp [runOp, applyOp, updateAssignment, hex, hfk]
            rw [hr]
            exact h
      · have hr : (runOp st (Op.updateAssignment aid role sd ed eid pid)).employee_meetings =
            st.employee_meetings := by
          simp [runOp, applyOp, updateAssignment, hex]
        rw [hr]
        exact h
  | deleteEmployee eid =>
      by_cases hg : employeeExists st.employees eid = true
      · have hr : (runOp st (Op.deleteEmployee eid)).employee_meetings =
            st.employee_meetings.filter (fun r => r.1 != eid) := by
          simp [runOp, applyOp, deleteEmployee, hg]
        rw [hr]
        exact h.filter _
      · have hr : (runOp st (Op.deleteEmployee eid)).employee_meetings =
            st.employee_meetings := by
          simp [runOp, applyOp, deleteEmployee, hg]
        rw [hr]
        exact h
  | deleteMeeting mid =>
      by_cases hg : meetingExists st.meetings mid = true
      · have hr : (runOp st (Op.deleteMeeting mid)).employee_meetings =
            st.employee_meetings.filter (fun r => r.2 != mid) := by
          simp [runOp, applyOp, deleteMeeting, hg]
        rw [hr]
        exact h.filter _
      · have hr : (runOp st (Op.deleteMeeting mid)).employee_meetings =
            st.employee_meetings := by
          simp [runOp, applyOp, deleteMeeting, hg]
        rw [hr]
        exact h
  | deleteProject pid =>
      by_cases hg : projectExists st.projects pid = true <;>
        · have hr : (runOp st (Op.deleteProject pid)).employee_meetings =
              st.employee_meetings := by
            simp [runOp, applyOp, deleteProject, hg]
          rw [hr]
          exact h
  | appendProject eid pid =>
      rw [show (runOp st (Op.appendProject eid pid)).employee_meetings =
            st.employee_meetings from
          join_eq_createAssignment_run st none none none (some eid) (some pid)]
      exact h
  | appendEmployee pid eid =>
      rw [show (runOp st (Op.appendEmployee pid eid)).employee_meetings =
            st.employee_meetings from
          join_eq_createAssignment_run st none none none (some eid) (some pid)]
      exact h
  | appendMeeting eid mid =>
      by_cases h1 : (employeeExists st.employees eid &&
          meetingExists st.meetings mid) = true
      · by_cases h2 : (eid, mid) ∈ st.employee_meetings
        · have hr : (runOp st (Op.appendMeeting eid mid)).employee_meetings =
              st.employee_meetings := by
            simp [runOp, applyOp, appendMeeting, h1, h2]
          rw [hr]
          exact h
        · have hr : (runOp st (Op.appendMeeting eid mid)).employee_meetings =
              st.employee_meetings ++ [(eid, mid)] := by
            simp [runOp, applyOp, appendMeeting, h1, h2]
          rw [hr]
          rw [List.nodup_append]
          exact ⟨h, List.nodup_singleton _, by simpa [List.disjoint_singleton] using h2⟩
      · have hr : (runOp st (Op.appendMeeting eid mid)).employee_meetings =
            st.employee_meetings := by
          simp [runOp, applyOp, appendMeeting, h1]
        rw [hr]
        exact h
  | removeAssignment aid => exact h

theorem joinNodup_runOps (st : Store) (ops : List Op)
    (h : st.employee_meetings.Nodup) :
    (runOps st ops).employee_meetings.Nodup := by
  induction ops generalizing st with
  | nil => exact h
  | cons op ops ih => exact ih (runOp st op) (joinNodup_runOp st op h)

theorem count_le_one_of_nodup (l : List (Nat × Nat)) (h : l.Nodup)
    (pr : Nat × Nat) : l.count pr ≤ 1 := by
  induction l with
  | nil => simp
  | cons a l ih =>
    rw [List.count_cons]
    rcases List.nodup_cons.mp h with ⟨hna, hnd⟩
    by_cases hpa : pr = a
    · subst hpa
      have hz : l.count pr = 0 := by
        rw [List.count_eq_zero]
        exact hna
      simp [hz]
    · rw [if_neg (fun hh : (a == pr) = true => hpa (eq_of_beq hh).symm)]
      simpa using ih hnd

/-! ### The claims -/

/-- Claim C1: for an Employee and a Project present in the store, appending
the Project to the Employee's derived `projects` view succeeds, the view then
contains that Project, and the Project's derived `employees` view contains
that Employee: the two lenses read the same new Assignment row. -/
theorem appendProject_bidirectional (st : Store) (eid pid : Nat)
    (E : Employee) (P : Project)
    (hE : st.employees.find? (fun e => e.id == eid) = some E)
    (hP : st.projects.find? (fun p => p.id == pid) = some P) :
    ∃ st', appendProject st eid pid = .ok st' ∧
      some P ∈ Employee.projects st' eid ∧
      some E ∈ Project.employees st' pid := by
  have hEex : employeeExists st.employees eid = true := by
    rw [employeeExists_iff]
    exact ⟨E, List.mem_of_find?_eq_some hE, by simpa using List.find?_some hE⟩
  have hPex : projectExists st.projects pid = true := by
    rw [projectExists_iff]
    exact ⟨P, List.mem_of_find?_eq_some hP, by simpa using List.find?_some hP⟩
  have hfk : fkOk st.employees st.projects (some eid) (some pid) = true := by
    rw [fkOk_iff]
    refine ⟨fun e he => ?_, fun p hp => ?_⟩
    · obtain rfl := Option.some.inj he
      exact hEex
    · obtain rfl := Option.some.inj hp
      exact hPex
  refine ⟨{ st with
      assignments := st.assignments ++
        [⟨st.next_assignment_id, none, none, none, some eid, some pid⟩],
      next_assignment_id := st.next_assignment_id + 1 }, ?_, ?_, ?_⟩
  · simp [appendProject, createAssignment, hfk, Except.map]
  · unfold Employee.projects Employee.assignments
    refine List.mem_map.mpr
      ⟨⟨st.next_assignment_id, none, none, none, some eid, some pid⟩, ?_, ?_⟩
    · exact List.mem_filter.mpr
        ⟨List.mem_append_right _ (List.mem_singleton_self _), by simp⟩
    · simpa using hP
  · unfold Project.employees Project.assignments
    refine List.mem_map.mpr
      ⟨⟨st.next_assignment_id, none, none, none, some eid, some pid⟩, ?_, ?_⟩
    · exact List.mem_filter.mpr
        ⟨List.mem_append_right _ (List.mem_singleton_self _), by simp⟩
    · simpa using hE

/-- Claim C1 evaluated at a concrete input. -/
theorem appendProject_bidirectional_witness :
    ∃ st', appendProject demoStore 1 1 = .ok st' ∧
      some (⟨1, none, none⟩ : Project) ∈ Employee.projects st' 1 ∧
      some (⟨1, none, none⟩ : Employee) ∈ Project.employees st' 1 :=
  appendProject_bidirectional demoStore 1 1 ⟨1, none, none⟩ ⟨1, none, none⟩
    (by decide) (by decide)

/-- Claim C2: deleting an Employee removes every Assignment whose
`employee_id` matches and every join row whose `employee_id` matches, keeps
every other Assignment, and leaves the `projects` and `meetings` tables
unchanged. -/
theorem deleteEmployee_cascade (st : Store) (eid : Nat)
    (h : employeeExists st.employees eid = true) :
    ∃ st', deleteEmployee st eid = .ok st' ∧
      (∀ a ∈ st'.assignments, a.employee_id ≠ some eid) ∧
      (∀ r ∈ st'.employee_meetings, r.1 ≠ eid) ∧
      (∀ a ∈ st.assignments, a.employee_id ≠ some eid → a ∈ st'.assignments) ∧
      st'.projects = st.projects ∧
      st'.meetings = st.meetings := by
  unfold deleteEmployee
  rw [if_pos h]
  refine ⟨_, rfl, ?_, ?_, ?_, rfl, rfl⟩
  · intro a ha
    simpa using (List.mem_filter.mp ha).2
  · intro r hr
    simpa using (List.mem_filter.mp hr).2
  · intro a ha hne
    exact List.mem_filter.mpr ⟨ha, by simpa using hne⟩

/-- Claim C2 evaluated at a concrete input. -/
theorem deleteEmployee_cascade_witness :
    ∃ st', deleteEmployee demoStore 1 = .ok st' ∧
      (∀ a ∈ st'.assignments, a.employee_id ≠ some 1) ∧
      (∀ r ∈ st'.employee_meetings, r.1 ≠ 1) ∧
      (∀ a ∈ demoStore.assignments,
        a.employee_id ≠ some 1 → a ∈ st'.assignments) ∧
      st'.projects = demoStore.projects ∧
      st'.meetings = demoStore.meetings :=
  deleteEmployee_cascade demoStore 1 (by decide)

/-- Claim C3 (amended): in every reachable store state, every Assignment
row's `employee_id`, when set, references an existing Employee row, and its
`project_id`, when set, references an existing Project row; every create,
update, delete and view-append operation preserves this.  (The foreign-key
columns are nullable, so a reference may be unset.) -/
theorem reachable_refIntact (ops : List Op) :
    refIntact (runOps emptyStore ops) = true :=
  refIntact_runOps emptyStore ops (by decide)

/-- Claim C3, as stated, is false: the foreign-key columns carry no
`nullable=False`, so inserting a bare Assignment row is a legal operation and
reaches a state in which an Assignment's references do not resolve to
existing rows. -/
theorem reachable_refResolves_cex :
    refResolves
      (runOps emptyStore [Op.createAssignment none none none none none]) =
      false := by
  decide

/-- Claim C4: creating an Assignment whose set `employee_id` or `project_id`
matches no existing Employee/Project row fails with
ReferentialIntegrityError, and the store is unchanged: no row is
persisted. -/
theorem createAssignment_dangling_fails (st : Store)
    (role sd ed : Option String) (eid pid : Option Nat)
    (h : (∃ e, eid = some e ∧ employeeExists st.employees e = false) ∨
         (∃ p, pid = some p ∧ projectExists st.projects p = false)) :
    createAssignment st role sd ed eid pid =
      .error .ReferentialIntegrityError ∧
    runOps st [Op.createAssignment role sd ed eid pid] = st := by
  have hfk : fkOk st.employees st.projects eid pid = false := by
    rcases h with ⟨e, he, hex⟩ | ⟨p, hp, hex⟩
    · subst he
      simp [fkOk, hex]
    · subst hp
      simp [fkOk, hex]
  constructor
  · unfold createAssignment
    rw [if_neg (by simp [hfk])]
  · simp [runOps, runOp, applyOp, createAssignment, hfk, Except.map]

/-- Claim C4 evaluated at a concrete input: employee id 99 does not exist. -/
theorem createAssignment_dangling_fails_witness :
    createAssignment demoStore none none none (some 99) none =
      .error .ReferentialIntegrityError ∧
    runOps demoStore [Op.createAssignment none none none (some 99) none] =
      demoStore :=
  createAssignment_dangling_fails demoStore none none none (some 99) none
    (Or.inl ⟨99, rfl, by decide⟩)

/-- Claim C5: deleting a Project removes every Assignment whose `project_id`
matches, keeps every other Assignment, and leaves the `employees` table (and
the meetings side) unchanged. -/
theorem deleteProject_cascade (st : Store) (pid : Nat)
    (h : projectExists st.projects pid = true) :
    ∃ st', deleteProject st pid = .ok st' ∧
      (∀ a ∈ st'.assignments, a.project_id ≠ some pid) ∧
      (∀ a ∈ st.assignments, a.project_id ≠ some pid → a ∈ st'.assignments) ∧
      st'.employees = st.employees ∧
      st'.meetings = st.meetings ∧
      st'.employee_meetings = st.employee_meetings := by
  unfold deleteProject
  rw [if_pos h]
  refine ⟨_, rfl, ?_, ?_, rfl, rfl, rfl⟩
  · intro a ha
    simpa using (List.mem_filter.mp ha).2
  · intro a ha hne
    exact List.mem_filter.mpr ⟨ha, by simpa using hne⟩

/-- Claim C5 evaluated at a concrete input. -/
theorem deleteProject_cascade_witness :
    ∃ st', deleteProject demoStore 1 = .ok st' ∧
      (∀ a ∈ st'.assignments, a.project_id ≠ some 1) ∧
      (∀ a ∈ demoStore.assignments,
        a.project_id ≠ some 1 → a ∈ st'.assignments) ∧
      st'.employees = demoStore.employees ∧
      st'.meetings = demoStore.meetings ∧
      st'.employee_meetings = demoStore.employee_meetings :=
  deleteProject_cascade demoStore 1 (by decide)

/-- Claim C6: deleting a Meeting removes every join row whose `meeting_id`
matches, keeps every other join row, and deletes no Employee: the
`employees` table is unchanged. -/
theorem deleteMeeting_removes_join_rows (st : Store) (mid : Nat)
    (h : meetingExists st.meetings mid = true) :
    ∃ st', deleteMeeting st mid = .ok st' ∧
      (∀ r ∈ st'.employee_meetings, r.2 ≠ mid) ∧
      (∀ r ∈ st.employee_meetings, r.2 ≠ mid → r ∈ st'.employee_meetings) ∧
      st'.employees = st.employees ∧
      st'.assignments = st.assignments ∧
      st'.projects = st.projects := by
  unfold deleteMeeting
  rw [if_pos h]
  refine ⟨_, rfl, ?_, ?_, rfl, rfl, rfl⟩
  · intro r hr
    simpa using (List.mem_filter.mp hr).2
  · intro r hr hne
    exact List.mem_filter.mpr ⟨hr, by simpa using hne⟩

/-- Claim C6 evaluated at a concrete input. -/
theorem deleteMeeting_removes_join_rows_witness :
    ∃ st', deleteMeeting demoStore 1 = .ok st' ∧
      (∀ r ∈ st'.employee_meetings, r.2 ≠ 1) ∧
      (∀ r ∈ demoStore.employee_meetings,
        r.2 ≠ 1 → r ∈ st'.employee_meetings) ∧
      st'.employees = demoStore.employees ∧
      st'.assignments = demoStore.assignments ∧
      st'.projects = demoStore.projects :=
  deleteMeeting_removes_join_rows demoStore 1 (by decide)

/-- Claim C7: appending through either derived view never mutates an
existing Assignment row: the old rows survive unchanged at the front of the table, one
fresh row is added, and appending the same pair again adds a second distinct
row rather than deduplicating or updating. -/
theorem append_never_mutates (st : Store) (eid pid : Nat)
    (hE : employeeExists st.employees eid = true)
    (hP : projectExists st.projects pid = true) :
    ∃ st' st'' a₁ a₂,
      appendProject st eid pid = .ok st' ∧
      appendEmployee st pid eid = .ok st' ∧
      st'.assignments = st.assignments ++ [a₁] ∧
      appendProject st' eid pid = .ok st'' ∧
      st''.assignments = st.assignments ++ [a₁, a₂] ∧
      a₁.employee_id = some eid ∧ a₁.project_id = some pid ∧
      a₂.employee_id = some eid ∧ a₂.project_id = some pid ∧
      a₁.id ≠ a₂.id := by
  have hfk : fkOk st.employees st.projects (some eid) (some pid) = true := by
    rw [fkOk_iff]
    refine ⟨fun e he => ?_, fun p hp => ?_⟩
    · obtain rfl := Option.some.inj he
      exact hE
    · obtain rfl := Option.some.inj hp
      exact hP
  refine ⟨{ st with
      assignments := st.assignments ++
        [⟨st.next_assignment_id, none, none, none, some eid, some pid⟩],
      next_assignment_id := st.next_assignment_id + 1 },
    { st with
      assignments := st.assignments ++
        [⟨st.next_assignment_id, none, none, none, some eid, some pid⟩,
         ⟨st.next_assignment_id + 1, none, none, none, some eid, some pid⟩],
      next_assignment_id := st.next_assignment_id + 2 },
    ⟨st.next_assignment_id, none, none, none, some eid, some pid⟩,
    ⟨st.next_assignment_id + 1, none, none, none, some eid, some pid⟩,
    ?_, ?_, rfl, ?_, rfl, rfl, rfl, rfl, rfl, by simp⟩
  · simp [appendProject, createAssignment, hfk, Except.map]
  · simp [appendEmployee, createAssignment, hfk, Except.map]
  · simp [appendProject, createAssignment, hfk, Except.map]

/-- Claim C7 evaluated at a concrete input. -/
theorem append_never_mutates_witness :
    ∃ st' st'' a₁ a₂,
      appendProject demoStore 1 1 = .ok st' ∧
      appendEmployee demoStore 1 1 = .ok st' ∧
      st'.assignments = demoStore.assignments ++ [a₁] ∧
      appendProject st' 1 1 = .ok st'' ∧
      st''.assignments = demoStore.assignments ++ [a₁, a₂] ∧
      a₁.employee_id = some 1 ∧ a₁.project_id = some 1 ∧
      a₂.employee_id = some 1 ∧ a₂.project_id = some 1 ∧
      a₁.id ≠ a₂.id :=
  append_never_mutates demoStore 1 1 (by decide) (by decide)

/-- Claim C8: in every reachable state each (employee_id, meeting_id) pair
appears at most once in the `employees_meetings` join table (unconditionally,
for the state itself), and appending a Meeting to an Employee's collection
when no join row exists for the pair inserts exactly one join row for it. -/
theorem employee_meetings_pair_unique (ops : List Op) (st : Store)
    (hst : st = runOps emptyStore ops) :
    (∀ pr : Nat × Nat, st.employee_meetings.count pr ≤ 1) ∧
    (∀ eid mid : Nat,
      employeeExists st.employees eid = true →
      meetingExists st.meetings mid = true →
      (eid, mid) ∉ st.employee_meetings →
      ∃ st', appendMeeting st eid mid = .ok st' ∧
        st'.employee_meetings.count (eid, mid) = 1 ∧
        (∀ pr : Nat × Nat, st'.employee_meetings.count pr ≤ 1)) := by
  have hnd : st.employee_meetings.Nodup := by
    rw [hst]
    exact joinNodup_runOps emptyStore ops List.nodup_nil
  refine ⟨fun pr => count_le_one_of_nodup _ hnd pr, ?_⟩
  intro eid mid hE hM hnm
  have hguard : (employeeExists st.employees eid &&
      meetingExists st.meetings mid) = true := by
    simp [hE, hM]
  refine ⟨{ st with
      employee_meetings := st.employee_meetings ++ [(eid, mid)] }, ?_, ?_, ?_⟩
  · unfold appendMeeting
    rw [if_pos hguard, if_neg hnm]
  · rw [show ({ st with
        employee_meetings :=
          st.employee_meetings ++ [(eid, mid)] } : Store).employee_meetings =
      st.employee_meetings ++ [(eid, mid)] from rfl]
    rw [List.count_append, List.count_eq_zero.mpr hnm]
    simp
  · intro pr
    have hnd2 : (st.employee_meetings ++ [(eid, mid)]).Nodup := by
      rw [List.nodup_append]
      exact ⟨hnd, List.nodup_singleton _,
        by simpa [List.disjoint_singleton] using hnm⟩
    exact count_le_one_of_nodup _ hnd2 pr

/-- Claim C8 evaluated at a concrete reachable state, the demo store. -/
theorem employee_meetings_pair_unique_witness :
    (∀ pr : Nat × Nat, demoStore.employee_meetings.count pr ≤ 1) ∧
    (∀ eid mid : Nat,
      employeeExists demoStore.employees eid = true →
      meetingExists demoStore.meetings mid = true →
      (eid, mid) ∉ demoStore.employee_meetings →
      ∃ st', appendMeeting demoStore eid mid = .ok st' ∧
        st'.employee_meetings.count (eid, mid) = 1 ∧
        (∀ pr : Nat × Nat, st'.employee_meetings.count pr ≤ 1)) :=
  employee_meetings_pair_unique demoOps demoStore rfl

/-- Claim C9: removing an Assignment from its parent's collection (the
association-proxy removal path included) deletes the orphaned row from the
store outright: no row with that id remains in any form, every other
Assignment row survives, and no other table changes. -/
theorem removeAssignment_deletes_orphan (st : Store) (aid : Nat) :
    (∀ a ∈ (removeAssignment st aid).assignments, a.id ≠ aid) ∧
    (∀ a ∈ st.assignments, a.id ≠ aid →
      a ∈ (removeAssignment st aid).assignments) ∧
    (removeAssignment st aid).employees = st.employees ∧
    (removeAssignment st aid).meetings = st.meetings ∧
    (removeAssignment st aid).projects = st.projects ∧
    (removeAssignment st aid).employee_meetings = st.employee_meetings := by
  refine ⟨?_, ?_, rfl, rfl, rfl, rfl⟩
  · intro a ha
    simpa using (List.mem_filter.mp ha).2
  · intro a ha hne
    exact List.mem_filter.mpr ⟨ha, by simpa using hne⟩

/-- Claim C10: the foreign-key columns `employee_id` and `project_id` are
nullable: an Assignment with both unset persists successfully, and so does
one with exactly one reference set (to an existing row); the stored row keeps
the NULLs. -/
theorem createAssignment_nullable (st : Store) (role sd ed : Option String) :
    (∃ st' aid, createAssignment st role sd ed none none = .ok (st', aid) ∧
      (⟨aid, role, sd, ed, none, none⟩ : Assignment) ∈ st'.assignments) ∧
    (∀ e, employeeExists st.employees e = true →
      ∃ st' aid,
        createAssignment st role sd ed (some e) none = .ok (st', aid) ∧
        (⟨aid, role, sd, ed, some e, none⟩ : Assignment) ∈ st'.assignments) ∧
    (∀ p, projectExists st.projects p = true →
      ∃ st' aid,
        createAssignment st role sd ed none (some p) = .ok (st', aid) ∧
        (⟨aid, role, sd, ed, none, some p⟩ : Assignment) ∈ st'.assignments) := by
  refine ⟨?_, fun e he => ?_, fun p hp => ?_⟩
  · exact ⟨{ st with
        assignments := st.assignments ++
          [⟨st.next_assignment_id, role, sd, ed, none, none⟩],
        next_assignment_id := st.next_assignment_id + 1 },
      st.next_assignment_id,
      by unfold createAssignment; rw [if_pos (by simp [fkOk])],
      List.mem_append_right _ (List.mem_singleton_self _)⟩
  · exact ⟨{ st with
        assignments := st.assignments ++
          [⟨st.next_assignment_id, role, sd, ed, some e, none⟩],
        next_assignment_id := st.next_assignment_id + 1 },
      st.next_assignment_id,
      by unfold createAssignment; rw [if_pos (by simp [fkOk, he])],
      List.mem_append_right _ (List.mem_singleton_self _)⟩
  · exact ⟨{ st with
        assignments := st.assignments ++
          [⟨st.next_assignment_id, role, sd, ed, none, some p⟩],
        next_assignment_id := st.next_assignment_id + 1 },
      st.next_assignment_id,
      by unfold createAssignment; rw [if_pos (by simp [fkOk, hp])],
      List.mem_append_right _ (List.mem_singleton_self _)⟩

end Models
